import Mathlib

/-!
A shallow embedding of the object store of this repository (`src/store.rs`):
the binary record codec for `StoredManifest` and `StoredObject`, the atomic
update protocol of `StoredPoint::update`, the cleanup sweep and its retention
predicates, the cleanup orchestration of `Store::cleanup`, and the path
derivation for repositories and publication points.

Bytes are modelled as `Nat` values below 256 and byte streams as `List Nat`.
Readers are modelled as functions taking the remaining input and returning
either an error or a value together with the unconsumed input, so that
`read_exact` failing with end-of-file corresponds exactly to the list being
too short.  Machine integers are modelled as `Nat`/`Int` with explicit
bounds; the store runs on 64-bit targets, where the `usize::try_from`
conversions on `u32` and `u64` values used by the codec always succeed.
-/

/-! ## Big-endian byte serialisation of unsigned integers -/

/-- Big-endian encoding of `v` into `w` bytes, as written by
`u32::to_be_bytes` and `u64::to_be_bytes` in `store.rs` (for `v` below
`256 ^ w`). -/
def beBytes : Nat → Nat → List Nat
  | 0, _ => []
  | w + 1, v => (v / 256 ^ w) % 256 :: beBytes w v

/-- Big-endian value of a byte list, as computed by `u32::from_be_bytes` and
`u64::from_be_bytes` in `store.rs`. -/
def beVal : List Nat → Nat
  | [] => 0
  | b :: rest => b * 256 ^ rest.length + beVal rest

/-- Two's-complement big-endian encoding of an `i64`, as written for the
`not_after` timestamp by `StoredManifest::write` (`i64::to_be_bytes`). -/
def i64ToBytes (t : Int) : List Nat :=
  beBytes 8 (t % 18446744073709551616).toNat

/-- Two's-complement interpretation of 8 bytes as an `i64`, as computed by
`i64::from_be_bytes` in `StoredManifest::read`. -/
def i64FromBytes (l : List Nat) : Int :=
  if beVal l < 9223372036854775808 then (beVal l : Int)
  else (beVal l : Int) - 18446744073709551616

/-! ## URIs

The `uri` crate is an external collaborator of `store.rs`.  Modelled from the
spec: decoding is strict and a syntactically invalid URI is a hard decode
error (§4.1); an rsync URI splits into authority / module / path segments
(§4.3) and its textual form is `rsync://<authority>/<module>/<path>`; an
https URI is kept as its raw bytes, which begin with the scheme
`https://`.  Equality of URIs is equality of their bytes.  The size bounds
record that `StoredManifest::write` and `StoredObject::write` require URI
lengths to fit in a `u32` (they panic otherwise).
-/

/-- ASCII bytes of the string `https://`. -/
def httpsScheme : List Nat := [104, 116, 116, 112, 115, 58, 47, 47]

/-- ASCII bytes of the string `rsync://`. -/
def rsyncScheme : List Nat := [114, 115, 121, 110, 99, 58, 47, 47]

/-- ASCII bytes of the string `rsync`. -/
def rsyncWord : List Nat := [114, 115, 121, 110, 99]

/-- ASCII bytes of the string `rrdp`. -/
def rrdpWord : List Nat := [114, 114, 100, 112]

/-- ASCII bytes of the string `tmp`. -/
def tmpWord : List Nat := [116, 109, 112]

/-- Checks that every element of the list is a byte value. -/
def bytesOk (l : List Nat) : Bool := l.all (fun c => decide (c < 256))

/-- Validity of the raw bytes of an https URI: scheme `https://`, a nonempty
remainder, byte values, and a length that fits in a `u32`. -/
def httpsUriOk (b : List Nat) : Bool :=
  (b.take 8 == httpsScheme) && decide (8 < b.length) &&
    decide (b.length < 4294967296) && bytesOk b

/-- An https URI: validated raw bytes, as held by `uri::Https`. -/
def HttpsUri := { b : List Nat // httpsUriOk b = true }

instance : DecidableEq HttpsUri := Subtype.instDecidableEq

/-- Parsing raw bytes into an https URI (`uri::Https::from_bytes`). -/
def httpsFromBytes (b : List Nat) : Option HttpsUri :=
  if h : httpsUriOk b = true then some ⟨b, h⟩ else none

/-- An rsync URI split into its authority, module and path segments, as
exposed by `uri::Rsync` through `canonical_authority`, `module_name` and
`path`. -/
structure RsyncUri where
  authority : List Nat
  module : List Nat
  path : List Nat
deriving DecidableEq

/-- Validity of an authority or module segment: nonempty, byte values, no
slash. -/
def compOk (l : List Nat) : Bool :=
  (!l.isEmpty) && l.all (fun c => decide (c < 256) && (c != 47))

/-- Textual form of an rsync URI (`uri::Rsync::as_slice`):
`rsync://<authority>/<module>/<path>`. -/
def RsyncUri.toBytes (u : RsyncUri) : List Nat :=
  rsyncScheme ++ (u.authority ++ (47 :: (u.module ++ (47 :: u.path))))

/-- Validity of an rsync URI value, including the `u32` size bound that
`StoredManifest::write` and `StoredObject::write` require. -/
def RsyncUri.Ok (u : RsyncUri) : Bool :=
  compOk u.authority && compOk u.module && bytesOk u.path &&
    decide (u.toBytes.length < 4294967296)

/-- Splits a list at its first slash byte (47); `none` when there is no
slash. -/
def splitSlash : List Nat → Option (List Nat × List Nat)
  | [] => none
  | c :: rest =>
    if c = 47 then some ([], rest)
    else match splitSlash rest with
      | some (a, b) => some (c :: a, b)
      | none => none

/-- Parsing raw bytes into an rsync URI (`uri::Rsync::from_bytes`): strip
the scheme, split off the authority and the module at the first two
slashes, validate the segments. -/
def rsyncFromBytes (b : List Nat) : Option RsyncUri :=
  if b.take 8 = rsyncScheme then
    match splitSlash (b.drop 8) with
    | none => none
    | some (auth, rest) =>
      match splitSlash rest with
      | none => none
      | some (m, p) =>
        if compOk auth && compOk m && bytesOk p then
          some ⟨auth, m, p⟩
        else none
  else none

/-- Lowercases an ASCII byte, as `canonical_authority` does for the
authority part of a URI. -/
def lowerByte (c : Nat) : Nat := if 65 ≤ c ∧ c ≤ 90 then c + 32 else c

/-- The canonical (lowercased) authority of an rsync URI
(`uri::Rsync::canonical_authority`). -/
def RsyncUri.canonicalAuthority (u : RsyncUri) : List Nat :=
  u.authority.map lowerByte

/-! ## Stored record data model (`StoredManifest`, `StoredObject`) -/

/-- A digest algorithm as used by `ManifestHash` from the external `rpki`
crate.  Modelled from the spec (§4.1): the one recognised 256-bit algorithm,
plus a stand-in for an unrecognised future algorithm which the encoder must
write as if the digest were absent. -/
inductive DigestAlg where
  | sha256
  | unrecognized
deriving DecidableEq

/-- Whether the algorithm is the recognised 256-bit one
(`DigestAlgorithm::is_sha256`). -/
def DigestAlg.isSha256 : DigestAlg → Bool
  | .sha256 => true
  | .unrecognized => false

/-- A manifest hash: an algorithm and the raw digest value
(`rpki::…::ManifestHash`). -/
structure ManifestHash where
  algorithm : DigestAlg
  value : List Nat
deriving DecidableEq

/-- The header record of a stored publication point (`StoredManifest` in
`store.rs`).  `not_after` is the expiry as Unix seconds (`Time` holds an
`i64` timestamp). -/
structure StoredManifest where
  not_after : Int
  rpki_notify : Option HttpsUri
  ca_repository : RsyncUri
  rpki_manifest : RsyncUri
  manifest : List Nat
  crl : List Nat
deriving DecidableEq

/-- An object record of a stored publication point (`StoredObject` in
`store.rs`). -/
structure StoredObject where
  uri : RsyncUri
  hash : Option ManifestHash
  content : List Nat
deriving DecidableEq

/-- Validity of a stored hash: the recognised algorithm with a 32-byte
digest value (the only hashes the running code constructs). -/
def hashOk : Option ManifestHash → Prop
  | none => True
  | some h => h.algorithm = .sha256 ∧ h.value.length = 32 ∧ bytesOk h.value = true

instance : ∀ h, Decidable (hashOk h)
  | none => .isTrue trivial
  | some _ => by unfold hashOk; infer_instance

/-- A valid `StoredManifest` value: timestamp in `i64` range, valid URIs,
byte contents whose lengths fit in a `u64` (the bounds under which
`StoredManifest::write` does not panic). -/
def StoredManifest.Valid (m : StoredManifest) : Prop :=
  -9223372036854775808 ≤ m.not_after ∧ m.not_after < 9223372036854775808 ∧
    m.ca_repository.Ok = true ∧ m.rpki_manifest.Ok = true ∧
    bytesOk m.manifest = true ∧ m.manifest.length < 18446744073709551616 ∧
    bytesOk m.crl = true ∧ m.crl.length < 18446744073709551616

instance (m : StoredManifest) : Decidable m.Valid := by
  unfold StoredManifest.Valid; infer_instance

/-- A valid `StoredObject` value: valid URI, valid hash, content whose
length fits in a `u64`. -/
def StoredObject.Valid (o : StoredObject) : Prop :=
  o.uri.Ok = true ∧ hashOk o.hash ∧ bytesOk o.content = true ∧
    o.content.length < 18446744073709551616

instance (o : StoredObject) : Decidable o.Valid := by
  unfold StoredObject.Valid; infer_instance

/-! ## Record encoders (`StoredManifest::write`, `StoredObject::write`) -/

/-- The encoding of the optional `rpki_notify` field: a `u32` big-endian
length followed by the bytes, with length 0 standing for `None`. -/
def notifyChunk : Option HttpsUri → List Nat
  | some u => beBytes 4 u.val.length ++ u.val
  | none => beBytes 4 0

/-- Serialises a stored manifest exactly as `StoredManifest::write` does:
version byte 0, `i64` timestamp, length-prefixed optional notify URI,
length-prefixed CA repository URI, length-prefixed manifest URI, `u64`
length-prefixed manifest bytes, `u64` length-prefixed CRL bytes. -/
def StoredManifest.write (m : StoredManifest) : List Nat :=
  [0] ++ (i64ToBytes m.not_after ++ (notifyChunk m.rpki_notify ++
    (beBytes 4 m.ca_repository.toBytes.length ++ (m.ca_repository.toBytes ++
    (beBytes 4 m.rpki_manifest.toBytes.length ++ (m.rpki_manifest.toBytes ++
    (beBytes 8 m.manifest.length ++ (m.manifest ++
    (beBytes 8 m.crl.length ++ m.crl)))))))))

/-- The encoding of the optional digest: discriminant 1 followed by the raw
digest for the recognised algorithm; discriminant 0 and nothing else for an
absent digest, and likewise for an unrecognised algorithm (which
`StoredObject::write` encodes as if the field were `None`). -/
def hashChunk : Option ManifestHash → List Nat
  | some h => if h.algorithm.isSha256 then 1 :: h.value else [0]
  | none => [0]

/-- Serialises a stored object exactly as `StoredObject::write` does:
version byte 0, length-prefixed URI, digest discriminant with digest bytes,
`u64` length-prefixed content. -/
def StoredObject.write (o : StoredObject) : List Nat :=
  [0] ++ (beBytes 4 o.uri.toBytes.length ++ (o.uri.toBytes ++
    (hashChunk o.hash ++ (beBytes 8 o.content.length ++ o.content))))

/-! ## A reader monad for the decoders

A reader is a function from the remaining input to an error or a value with
the unconsumed input.  `readExact n` models `Read::read_exact` on an
in-memory stream: it fails exactly when fewer than `n` bytes remain.
-/

/-- A decoding step over a byte stream. -/
def DecM (α : Type) : Type := List Nat → Except Unit (α × List Nat)

/-- Returns a value without consuming input. -/
def dpure {α : Type} (a : α) : DecM α := fun s => .ok (a, s)

/-- Sequences two decoding steps. -/
def dbind {α β : Type} (m : DecM α) (f : α → DecM β) : DecM β := fun s =>
  match m s with
  | .ok (a, s2) => f a s2
  | .error e => .error e

/-- A failing decoding step (a malformed-data IO error in `store.rs`). -/
def dfail {α : Type} : DecM α := fun _ => .error ()

/-- Reads exactly `n` bytes (`Read::read_exact`), failing with end-of-file
when fewer remain. -/
def readExact (n : Nat) : DecM (List Nat) := fun s =>
  if n ≤ s.length then .ok (s.take n, s.drop n) else .error ()

/-! ## Record decoders (`StoredManifest::read`, `StoredObject::read`) -/

/-- Decodes the optional notify URI given its already-read length: length 0
means absent, otherwise that many bytes must parse as an https URI. -/
def readNotify (n : Nat) : DecM (Option HttpsUri) :=
  if n = 0 then dpure none
  else
    dbind (readExact n) fun nb =>
      match httpsFromBytes nb with
      | some u => dpure (some u)
      | none => dfail

/-- Decodes a stored manifest exactly as `StoredManifest::read` does, field
by field in the order written, failing on a wrong version byte, a short
read, or an invalid URI. -/
def decodeManifestM : DecM StoredManifest :=
  dbind (readExact 1) fun vb =>
  if vb = [0] then
    dbind (readExact 8) fun tsb =>
    dbind (readExact 4) fun nlb =>
    dbind (readNotify (beVal nlb)) fun notify =>
    dbind (readExact 4) fun calb =>
    dbind (readExact (beVal calb)) fun cab =>
    match rsyncFromBytes cab with
    | none => dfail
    | some caRep =>
      dbind (readExact 4) fun mlb =>
      dbind (readExact (beVal mlb)) fun mfb =>
      match rsyncFromBytes mfb with
      | none => dfail
      | some mftUri =>
        dbind (readExact 8) fun mblb =>
        dbind (readExact (beVal mblb)) fun mfBytes =>
        dbind (readExact 8) fun clb =>
        dbind (readExact (beVal clb)) fun crlBytes =>
        dpure ⟨i64FromBytes tsb, notify, caRep, mftUri, mfBytes, crlBytes⟩
  else dfail

/-- Reads a stored manifest from the head of a byte stream, returning the
manifest and the unconsumed remainder (`StoredManifest::read`). -/
def StoredManifest.read (b : List Nat) :
    Except Unit (StoredManifest × List Nat) :=
  decodeManifestM b

/-- Decodes the digest given the already-read discriminant byte:
0 means absent, 1 is followed by a 32-byte digest, anything else is a hard
decode error (`unsupported hash type`). -/
def readHash (htb : List Nat) : DecM (Option ManifestHash) :=
  match htb with
  | [t] =>
    if t = 0 then dpure none
    else if t = 1 then
      dbind (readExact 32) fun v => dpure (some ⟨.sha256, v⟩)
    else dfail
  | _ => dfail

/-- Decodes the body of a stored object record, starting from its version
byte, exactly as `StoredObject::read` does past its initial end-of-file
check. -/
def decodeObjectM : DecM StoredObject :=
  dbind (readExact 1) fun vb =>
  if vb = [0] then
    dbind (readExact 4) fun ulb =>
    dbind (readExact (beVal ulb)) fun ub =>
    match rsyncFromBytes ub with
    | none => dfail
    | some uri =>
      dbind (readExact 1) fun htb =>
      dbind (readHash htb) fun hash =>
      dbind (readExact 8) fun szb =>
      dbind (readExact (beVal szb)) fun content =>
      dpure ⟨uri, hash, content⟩
  else dfail

/-- Reads the next stored object record from a byte stream
(`StoredObject::read`): end-of-input at the version byte, with nothing
consumed, is the end of the sequence (`Ok(None)`); otherwise the record body
is decoded, and any later truncation or malformed field is an error. -/
def StoredObject.read (b : List Nat) :
    Except Unit (Option (StoredObject × List Nat)) :=
  match b with
  | [] => .ok none
  | x :: rest =>
    match decodeObjectM (x :: rest) with
    | .ok (o, r) => .ok (some (o, r))
    | .error e => .error e

/-- Reads the whole object-record sequence of a point by repeated
`StoredObject::read`, as the `Iterator` implementation for `StoredPoint`
does.  The fuel argument only bounds the recursion; every record consumes at
least its version byte, so a fuel of one more than the stream length always
suffices. -/
def readObjects : Nat → List Nat → Except Unit (List StoredObject)
  | 0, _ => .error ()
  | fuel + 1, b =>
    match StoredObject.read b with
    | .ok none => .ok []
    | .ok (some (o, rest)) =>
      match readObjects fuel rest with
      | .ok l => .ok (o :: l)
      | .error e => .error e
    | .error e => .error e

/-! ## The filesystem model and the atomic update protocol

The filesystem is a flat map from paths (byte strings) to file contents.
Directories are implicit; `create_dir_all` never fails in this model and
no fault injection is performed for plain I/O, so the storage-fault
branches of `StoredPoint::update` are unreachable and the only error
outcomes are those produced by the temporary-name allocator and by the
caller-supplied object source.
-/

/-- A flat filesystem: a map from paths to file contents. -/
def Fs : Type := List Nat → Option (List Nat)

/-- Creates or truncates the file at `p` with content `c`. -/
def Fs.set (fs : Fs) (p c : List Nat) : Fs :=
  fun q => if q = p then some c else fs q

/-- Deletes the file at `p` (`fs::remove_file`). -/
def Fs.erase (fs : Fs) (p : List Nat) : Fs :=
  fun q => if q = p then none else fs q

/-- The content of the file at `p`, empty when absent. -/
def Fs.get (fs : Fs) (p : List Nat) : List Nat := (fs p).getD []

/-- Appends bytes to the file at `p` (a sequential `write_all` on an open
handle). -/
def Fs.append (fs : Fs) (p c : List Nat) : Fs := fs.set p (fs.get p ++ c)

/-- Renames `src` onto `dst`, replacing `dst` (`fs::rename`). -/
def Fs.rename (fs : Fs) (src dst : List Nat) : Fs :=
  fun q => if q = dst then fs src else if q = src then none else fs q

/-- The path of a scratch file with the given name: `<base>/tmp/<name>`. -/
def tmpPathOf (base name : List Nat) : List Nat :=
  base ++ 47 :: tmpWord ++ 47 :: name

/-- The temporary-file allocator (`Store::tmp_file`): walk the stream of
random names, taking the first whose path does not yet exist
(`create_new`); `none` when the list of attempts is exhausted.
`StoredPoint::update` passes the first 100 names. -/
def tmp_file (base : List Nat) (names : List (List Nat)) (fs : Fs) :
    Option (List Nat) :=
  match names with
  | [] => none
  | n :: rest =>
    if fs (tmpPathOf base n) = none then some (tmpPathOf base n)
    else tmp_file base rest fs

/-- The error type of `StoredPoint::update` (`UpdateError` in `store.rs`):
a recoverable application abort or a fatal storage fault. -/
inductive UpdateError where
  | abort
  | fatal
deriving DecidableEq

/-- One answer of the caller-supplied object source: another object, end of
data, or one of the two error outcomes. -/
inductive SrcStep where
  | obj (o : StoredObject)
  | done
  | abort
  | fatal
deriving DecidableEq

/-- The outcome the object source signals: `none` for a normal end of data
(including an exhausted script, which models a source that keeps answering
`Ok(None)`), or the first error it returns. -/
def srcResult : List SrcStep → Option UpdateError
  | [] => none
  | .obj _ :: rest => srcResult rest
  | .done :: _ => none
  | .abort :: _ => some .abort
  | .fatal :: _ => some .fatal

/-- The object-writing loop of `StoredPoint::update`: invoke the source,
append each yielded object's encoding to the staging file, stop at end of
data or at the source's first error, which is reported alongside the
filesystem as written so far. -/
def writeLoop (p : List Nat) : List SrcStep → Fs → Option UpdateError × Fs
  | [], fs => (none, fs)
  | .obj o :: rest, fs => writeLoop p rest (fs.append p (StoredObject.write o))
  | .done :: _, fs => (none, fs)
  | .abort :: _, fs => (some .abort, fs)
  | .fatal :: _, fs => (some .fatal, fs)

/-- The in-memory state of a `StoredPoint`: its target path, the open file
(content and read cursor) if any, the decoded header if any, and the
remembered offset of the first object record. -/
structure PointState where
  path : List Nat
  file : Option (List Nat × Nat)
  manifest : Option StoredManifest
  object_start : Nat
deriving DecidableEq

/-- The atomic update protocol of `StoredPoint::update`: allocate a staging
file under the scratch subtree, write the new header, record the offset
after it, run the object loop; on a source error delete the staging file
and return that error unchanged; on success delete the old file (when the
point had one open), rename the staging file onto the target path, reopen
it and seek to the recorded offset.  Returns the call's outcome together
with the final filesystem and point state. -/
def StoredPoint.update (base : List Nat) (names : List (List Nat)) (fs : Fs)
    (sp : PointState) (m : StoredManifest) (steps : List SrcStep) :
    Except UpdateError Unit × Fs × PointState :=
  match tmp_file base (names.take 100) fs with
  | none => (.error .fatal, fs, sp)
  | some tpath =>
    let fs1 := fs.set tpath []
    let fs2 := fs1.append tpath (StoredManifest.write m)
    let tmpObjectStart := (fs2.get tpath).length
    let wl := writeLoop tpath steps fs2
    match wl.1 with
    | some e => (.error e, wl.2.erase tpath, sp)
    | none =>
      let fs4 := if sp.file.isSome then wl.2.erase sp.path else wl.2
      let fs5 := fs4.rename tpath sp.path
      (.ok (), fs5,
        { path := sp.path,
          file := some (fs5.get sp.path, tmpObjectStart),
          manifest := some m,
          object_start := tmpObjectStart })

/-- Iterating a stored point from its current cursor: the objects decoded
sequentially from the open file, none when the point has no file. -/
def pointObjects (sp : PointState) : Except Unit (List StoredObject) :=
  match sp.file with
  | none => .ok []
  | some (content, pos) =>
    readObjects ((content.drop pos).length + 1) (content.drop pos)

/-! ## Retention predicates and the cleanup sweep -/

/-- Whether to retain a stored manifest in an RRDP repository
(`StoredManifest::retain_rrdp`): `none` once expired, otherwise the stored
notify URI — which is also `none` when no notify URI is stored.  `now` is
the value of `Time::now()`. -/
def StoredManifest.retain_rrdp (m : StoredManifest) (now : Int) :
    Option HttpsUri :=
  if m.not_after ≤ now then none else m.rpki_notify

/-- Whether to retain a stored manifest in the rsync repository
(`StoredManifest::retain_rsync`): `none` once expired, otherwise the
manifest URI. -/
def StoredManifest.retain_rsync (m : StoredManifest) (now : Int) :
    Option RsyncUri :=
  if m.not_after ≤ now then none else some m.rpki_manifest

/-- The retention check `Store::cleanup_rrdp` applies to each file of the
RRDP tree: keep exactly when the header decodes and `retain_rrdp` answers
with a URI. -/
def keep_rrdp (now : Int) (content : List Nat) : Bool :=
  match StoredManifest.read content with
  | .ok (m, _) => (m.retain_rrdp now).isSome
  | .error _ => false

/-- The retention check `Store::cleanup_rsync` applies to each file of the
rsync tree: keep exactly when the header decodes and `retain_rsync` answers
with a URI. -/
def keep_rsync (now : Int) (content : List Nat) : Bool :=
  match StoredManifest.read content with
  | .ok (m, _) => (m.retain_rsync now).isSome
  | .error _ => false

/-! ## The cleanup directory walk (`cleanup_dir_tree`) -/

mutual

/-- A directory entry as seen by the cleanup walk: a regular file with its
content, a subdirectory with its entries, or anything else (a symlink, a
device, …). -/
inductive FsEntry where
  | file : List Nat → FsEntry
  | dir : FsEntries → FsEntry
  | other : FsEntry

/-- The entries of one directory. -/
inductive FsEntries where
  | nil : FsEntries
  | cons : FsEntry → FsEntries → FsEntries

end

/-- The recursive body of `cleanup_dir_tree`: process the entries of one
directory, returning whether anything was retained together with the
entries left behind.  A file is kept exactly when the predicate answers
true; a subdirectory is recursed into first and removed when nothing below
it was retained; any other entry is conservatively retained. -/
def cleanup_children (keep : List Nat → Bool) : FsEntries → Bool × FsEntries
  | .nil => (false, .nil)
  | .cons (.file c) rest =>
    let r := cleanup_children keep rest
    if keep c then (true, .cons (.file c) r.2) else r
  | .cons (.dir es) rest =>
    let d := cleanup_children keep es
    let r := cleanup_children keep rest
    if d.1 then (true, .cons (.dir d.2) r.2) else r
  | .cons .other rest =>
    let r := cleanup_children keep rest
    (true, .cons .other r.2)

mutual

/-- Whether a directory entry has at least one retained descendant: a file
the predicate keeps, a subdirectory with a retained descendant, or an entry
that is neither a file nor a directory. -/
def entry_retained (keep : List Nat → Bool) : FsEntry → Bool
  | .file c => keep c
  | .dir es => entries_retained keep es
  | .other => true

/-- Whether a directory has at least one retained entry. -/
def entries_retained (keep : List Nat → Bool) : FsEntries → Bool
  | .nil => false
  | .cons e rest => entry_retained keep e || entries_retained keep rest

end

/-! ## Cleanup orchestration (`Store::cleanup`) -/

/-- The externally visible operations of one `Store::cleanup` call. -/
inductive CleanupEvent where
  | taSweep
  | rrdpSweep
  | rsyncSweep
  | tmpSweep
  | commitCall
deriving DecidableEq

/-- The sequencing of `Store::cleanup`: the trust-anchor sweep, the RRDP
sweep, the rsync sweep and the scratch wipe run in order, each aborting the
whole call on a fatal error; only when all four succeeded, and only when
the caller supplied a collector-cleanup collaborator, is the collaborator's
`commit` invoked.  The booleans are the outcomes of the four sweeps and of
`commit` (`true` for success); the result is the call's own outcome
together with the ordered trace of operations that ran. -/
def Store.cleanup (hasCollector ta rr rs tm cm : Bool) :
    Bool × List CleanupEvent :=
  if ta = false then (false, [.taSweep]) else
  if rr = false then (false, [.taSweep, .rrdpSweep]) else
  if rs = false then (false, [.taSweep, .rrdpSweep, .rsyncSweep]) else
  if tm = false then (false, [.taSweep, .rrdpSweep, .rsyncSweep, .tmpSweep])
  else if hasCollector then
    (cm, [.taSweep, .rrdpSweep, .rsyncSweep, .tmpSweep, .commitCall])
  else (true, [.taSweep, .rrdpSweep, .rsyncSweep, .tmpSweep])

/-! ## SHA-256 and path derivation

`Store::rrdp_repository_path` names an RRDP repository's directory by the
SHA-256 digest of the notify URI's bytes, written as lowercase hex.  The
digest itself is computed by the external `ring` library through the `rpki`
crate; it is modelled here by a direct implementation of FIPS 180-4
SHA-256 over byte lists.
-/

/-- Truncation to a 32-bit word. -/
def w32 (n : Nat) : Nat := n % 4294967296

/-- Right rotation of a 32-bit word by `n` bits. -/
def rotr32 (n x : Nat) : Nat :=
  w32 ((x >>> n) ||| (x <<< (32 - n)))

/-- The big sigma-0 function of SHA-256. -/
def bsig0 (x : Nat) : Nat := rotr32 2 x ^^^ rotr32 13 x ^^^ rotr32 22 x

/-- The big sigma-1 function of SHA-256. -/
def bsig1 (x : Nat) : Nat := rotr32 6 x ^^^ rotr32 11 x ^^^ rotr32 25 x

/-- The small sigma-0 function of SHA-256. -/
def ssig0 (x : Nat) : Nat := rotr32 7 x ^^^ rotr32 18 x ^^^ (x >>> 3)

/-- The small sigma-1 function of SHA-256. -/
def ssig1 (x : Nat) : Nat := rotr32 17 x ^^^ rotr32 19 x ^^^ (x >>> 10)

/-- The choice function of SHA-256. -/
def chf (x y z : Nat) : Nat := (x &&& y) ^^^ ((x ^^^ 4294967295) &&& z)

/-- The majority function of SHA-256. -/
def majf (x y z : Nat) : Nat := (x &&& y) ^^^ (x &&& z) ^^^ (y &&& z)

/-- The SHA-256 round constants, the fractional parts of the cube roots
of the first 64 primes (FIPS 180-4), written in decimal. -/
def sha256K : List Nat :=
  [1116352408, 1899447441, 3049323471, 3921009573,
   961987163, 1508970993, 2453635748, 2870763221,
   3624381080, 310598401, 607225278, 1426881987,
   1925078388, 2162078206, 2614888103, 3248222580,
   3835390401, 4022224774, 264347078, 604807628,
   770255983, 1249150122, 1555081692, 1996064986,
   2554220882, 2821834349, 2952996808, 3210313671,
   3336571891, 3584528711, 113926993, 338241895,
   666307205, 773529912, 1294757372, 1396182291,
   1695183700, 1986661051, 2177026350, 2456956037,
   2730485921, 2820302411, 3259730800, 3345764771,
   3516065817, 3600352804, 4094571909, 275423344,
   430227734, 506948616, 659060556, 883997877,
   958139571, 1322822218, 1537002063, 1747873779,
   1955562222, 2024104815, 2227730452, 2361852424,
   2428436474, 2756734187, 3204031479, 3329325298]

/-- The SHA-256 initial hash value, the fractional parts of the square
roots of the first 8 primes (FIPS 180-4), written in decimal. -/
def sha256H0 : List Nat :=
  [1779033703, 3144134277, 1013904242, 2773480762,
   1359893119, 2600822924, 528734635, 1541459225]

/-- Packs bytes into big-endian 32-bit words. -/
def bytesToWords : List Nat → List Nat
  | b0 :: b1 :: b2 :: b3 :: rest =>
    (((b0 * 256 + b1) * 256 + b2) * 256 + b3) :: bytesToWords rest
  | _ => []

/-- Extends the 16-word message block by `k` further schedule words. -/
def extendW : Nat → List Nat → List Nat
  | 0, ws => ws
  | k + 1, ws =>
    extendW k (ws ++ [w32 (ssig1 (ws.getD (ws.length - 2) 0) +
      ws.getD (ws.length - 7) 0 + ssig0 (ws.getD (ws.length - 15) 0) +
      ws.getD (ws.length - 16) 0)])

/-- One SHA-256 round on the eight working variables. -/
def sha256Round (s : List Nat) (k w : Nat) : List Nat :=
  match s with
  | [a, b, c, d, e, f, g, h] =>
    let t1 := w32 (h + bsig1 e + chf e f g + k + w)
    let t2 := w32 (bsig0 a + majf a b c)
    [w32 (t1 + t2), a, b, c, w32 (d + t1), e, f, g]
  | _ => s

/-- Processes one 64-byte block into the running hash. -/
def sha256Block (H : List Nat) (block : List Nat) : List Nat :=
  let ws := extendW 48 (bytesToWords block)
  let s := (sha256K.zip ws).foldl (fun st kw => sha256Round st kw.1 kw.2) H
  List.zipWith (fun x y => w32 (x + y)) H s

/-- The SHA-256 padding: a 0x80 byte, zeros to 56 modulo 64, and the
message length in bits as 8 big-endian bytes. -/
def padMsg (msg : List Nat) : List Nat :=
  msg ++ 128 :: List.replicate ((119 - msg.length % 64) % 64) 0 ++
    beBytes 8 (8 * msg.length)

/-- Splits a list into chunks of 64, with fuel for termination. -/
def chunks64Go : Nat → List Nat → List (List Nat)
  | 0, _ => []
  | _, [] => []
  | f + 1, l => l.take 64 :: chunks64Go f (l.drop 64)

/-- Splits a list into chunks of 64 elements. -/
def chunks64 (l : List Nat) : List (List Nat) := chunks64Go l.length l

/-- The SHA-256 digest of a byte list, as 32 bytes. -/
def sha256 (msg : List Nat) : List Nat :=
  ((chunks64 (padMsg msg)).foldl sha256Block sha256H0).foldr
    (fun wd acc => beBytes 4 wd ++ acc) []

/-- One lowercase hexadecimal digit byte, as produced by
`char::from_digit(d, 16)` for `d < 16`. -/
def hexDigitByte (d : Nat) : Nat := if d < 10 then 48 + d else 87 + d

/-- The lowercase hexadecimal spelling of a byte list, two digits per byte,
high nibble first, exactly as the digest loop in
`Store::rrdp_repository_path` produces it. -/
def hexBytes (l : List Nat) : List Nat :=
  l.foldr (fun b acc =>
    hexDigitByte ((b >>> 4) &&& 15) :: hexDigitByte (b &&& 15) :: acc) []

/-- The directory of an RRDP repository
(`Store::rrdp_repository_path`): `<base>/rrdp/<sha256-hex-64>` where the
digest is over the exact bytes of the notify URI. -/
def Store.rrdp_repository_path (base : List Nat) (u : HttpsUri) : List Nat :=
  base ++ 47 :: rrdpWord ++ 47 :: hexBytes (sha256 u.val)

/-- The directory of the shared rsync repository
(`Store::rsync_repository_path`): `<base>/rsync`. -/
def Store.rsync_repository_path (base : List Nat) : List Nat :=
  base ++ 47 :: rsyncWord

/-- The certification-authority data that `Run::repository` consults.
Modelled from the spec: the external validation layer's CA certificate
exposes the optional rpkiNotify URI and the manifest's rsync URI. -/
structure CaCert where
  rpki_notify : Option HttpsUri
  rpki_manifest : RsyncUri

/-- Picks the repository for a CA (`Run::repository`): the RRDP repository
named by the notify URI whenever one is present — regardless of which
transport actually delivered the data, which this function is not even told
— and the shared rsync repository otherwise.  Returns the repository path
and the `is_rrdp` flag. -/
def Run.repository (base : List Nat) (ca : CaCert) : List Nat × Bool :=
  match ca.rpki_notify with
  | some u => (Store.rrdp_repository_path base u, true)
  | none => (Store.rsync_repository_path base, false)

/-- The path of a publication point inside its repository
(`Repository::point_path`): `<repo>/rsync/<authority>/<module>/<path>` of
the manifest URI, with the authority in canonical (lowercase) form. -/
def Repository.point_path (repoPath : List Nat) (mft : RsyncUri) : List Nat :=
  repoPath ++ 47 :: rsyncWord ++ 47 :: mft.canonicalAuthority ++
    47 :: mft.module ++ 47 :: mft.path

/-- The storage path of a CA's publication point (`Run::pub_point`): the
point path of its manifest URI inside the repository `Run::repository`
selects. -/
def Run.pub_point (base : List Nat) (ca : CaCert) : List Nat :=
  Repository.point_path (Run.repository base ca).1 ca.rpki_manifest

/-! ## Decoder calculi: exact consumption and failure on short input -/

/-- A decoding step consumes exactly `c` producing `v`: on `c` followed by
anything, it succeeds with `v` and leaves exactly that remainder. -/
def Consumes {α : Type} (m : DecM α) (c : List Nat) (v : α) : Prop :=
  ∀ rest, m (c ++ rest) = .ok (v, rest)

/-- A decoding step fails on every proper front part of `c`. -/
def FailsShort {α : Type} (m : DecM α) (c : List Nat) : Prop :=
  ∀ p t, p ++ t = c → t ≠ [] → m p = .error ()

/-- A decoding step behaves exactly right on `c`: it consumes all of it
producing `v`, and errors on any proper front part. -/
def GoodAt {α : Type} (m : DecM α) (c : List Nat) (v : α) : Prop :=
  Consumes m c v ∧ FailsShort m c

/-! ## Concrete example values used by the witnesses -/

/-- Example rsync URI `rsync://a/m/p/q`. -/
def uriEx : RsyncUri := ⟨[97], [109], [112, 47, 113]⟩

/-- Example https URI `https://n`. -/
def httpsEx : HttpsUri := ⟨[104, 116, 116, 112, 115, 58, 47, 47, 110], by decide⟩

/-- Example stored manifest with a notify URI. -/
def mfEx : StoredManifest := ⟨10, some httpsEx, uriEx, uriEx, [1, 2], [3]⟩

/-- Example stored manifest without a notify URI. -/
def mfExNoNotify : StoredManifest := ⟨10, none, uriEx, uriEx, [1, 2], [3]⟩

/-- Example stored object without a digest. -/
def objEx : StoredObject := ⟨uriEx, none, [9, 9]⟩

/-- Example stored object with a digest. -/
def objExHash : StoredObject :=
  ⟨uriEx, some ⟨.sha256, List.replicate 32 7⟩, [5]⟩

/-- Example certification authority advertising a notify URI. -/
def caEx : CaCert := ⟨some httpsEx, uriEx⟩

/-- Example certification authority without a notify URI. -/
def caExNoNotify : CaCert := ⟨none, uriEx⟩

/-! ## Basic list and serialisation lemmas -/

theorem take_len_app {α : Type} (a b : List α) : (a ++ b).take a.length = a := by
  induction a with
  | nil => simp
  | cons x xs ih => simp [ih]

theorem drop_len_app {α : Type} (a b : List α) : (a ++ b).drop a.length = b := by
  induction a with
  | nil => simp
  | cons x xs ih => simp [ih]

theorem beBytes_length (w v : Nat) : (beBytes w v).length = w := by
  induction w generalizing v with
  | zero => rfl
  | succ w ih => simp [beBytes, ih]

theorem beVal_beBytes_mod (w v : Nat) : beVal (beBytes w v) = v % 256 ^ w := by
  induction w generalizing v with
  | zero => simp [beBytes, beVal, Nat.mod_one]
  | succ w ih =>
    rw [beBytes, beVal, beBytes_length, ih, pow_succ]
    rw [Nat.mod_mul]
    ring

theorem beVal_beBytes (w v : Nat) (h : v < 256 ^ w) :
    beVal (beBytes w v) = v := by
  rw [beVal_beBytes_mod, Nat.mod_eq_of_lt h]

theorem beBytes_mem_lt (w v : Nat) : ∀ b ∈ beBytes w v, b < 256 := by
  induction w generalizing v with
  | zero => simp [beBytes]
  | succ w ih =>
    intro b hb
    rw [beBytes] at hb
    rcases List.mem_cons.mp hb with h | h
    · subst h; exact Nat.mod_lt _ (by norm_num)
    · exact ih v b h

theorem i64_roundtrip (t : Int) (h1 : -9223372036854775808 ≤ t)
    (h2 : t < 9223372036854775808) : i64FromBytes (i64ToBytes t) = t := by
  have h256 : (256 : Nat) ^ 8 = 18446744073709551616 := by norm_num
  have hnn : (0 : Int) ≤ t % 18446744073709551616 :=
    Int.emod_nonneg _ (by norm_num)
  have hlt : t % 18446744073709551616 < 18446744073709551616 :=
    Int.emod_lt_of_pos _ (by norm_num)
  unfold i64FromBytes i64ToBytes
  rw [beVal_beBytes 8 _ (by rw [h256]; omega)]
  split <;> omega

/-! ## The decoder calculus -/

theorem goodAt_pure {α : Type} (a : α) : GoodAt (dpure a) [] a := by
  constructor
  · intro rest; rfl
  · intro p t hp ht
    rcases List.append_eq_nil.mp hp with ⟨-, h2⟩
    exact absurd h2 ht

theorem goodAt_readExact {n : Nat} {l : List Nat} (h : l.length = n) :
    GoodAt (readExact n) l l := by
  constructor
  · intro rest
    unfold readExact
    rw [if_pos (by simp [← h])]
    rw [← h, take_len_app, drop_len_app]
  · intro p t hp ht
    unfold readExact
    rw [if_neg]
    intro hle
    have : l.length = p.length + t.length := by rw [← hp]; simp
    have ht0 : 0 < t.length := List.length_pos.mpr ht
    omega

theorem goodAt_bind {α β : Type} {m : DecM α} {f : α → DecM β}
    (c d : List Nat) {v : α} {w : β} {e : List Nat}
    (h1 : GoodAt m c v) (h2 : GoodAt (f v) d w) (he : e = c ++ d) :
    GoodAt (dbind m f) e w := by
  subst he
  constructor
  · intro rest
    unfold dbind
    rw [List.append_assoc, h1.1 (d ++ rest)]
    exact h2.1 rest
  · intro p t hp ht
    unfold dbind
    rcases List.append_eq_append_iff.mp hp with ⟨s, hc, ht2⟩ | ⟨s, hpc, hd⟩
    · rcases eq_or_ne s [] with hs | hs
      · subst hs
        rw [List.append_nil] at hc
        rw [List.nil_append] at ht2
        have hm : m p = .ok (v, []) := by
          have := h1.1 []
          rw [List.append_nil] at this
          rw [← hc]
          exact this
        rw [hm]
        exact h2.2 [] t (by rw [List.nil_append, ht2]) ht
      · rw [h1.2 p s hc.symm hs]
    · rw [hpc, h1.1 s]
      exact h2.2 s t hd.symm ht


/-! ## URI parsing round trips -/

theorem httpsOk_facts {b : List Nat} (h : httpsUriOk b = true) :
    8 < b.length ∧ b.length < 4294967296 := by
  unfold httpsUriOk at h
  simp only [Bool.and_eq_true, decide_eq_true_eq] at h
  exact ⟨h.1.1.2, h.1.2⟩

theorem httpsFromBytes_val (u : HttpsUri) : httpsFromBytes u.val = some u := by
  obtain ⟨b, hb⟩ := u
  unfold httpsFromBytes
  rw [dif_pos hb]

theorem compOk_facts {l : List Nat} (h : compOk l = true) :
    l ≠ [] ∧ ∀ c ∈ l, c ≠ 47 := by
  unfold compOk at h
  simp only [Bool.and_eq_true, List.all_eq_true, Bool.not_eq_true',
    List.isEmpty_eq_false, decide_eq_true_eq, bne_iff_ne] at h
  exact ⟨h.1, fun c hc => (h.2 c hc).2⟩

theorem splitSlash_app (a r : List Nat) (h : ∀ c ∈ a, c ≠ 47) :
    splitSlash (a ++ 47 :: r) = some (a, r) := by
  induction a with
  | nil => simp [splitSlash]
  | cons x xs ih =>
    have hx : x ≠ 47 := h x (by simp)
    simp only [List.cons_append, splitSlash, List.append_eq]
    rw [if_neg hx, ih (fun c hc => h c (by simp [hc]))]

theorem rsyncOk_facts {u : RsyncUri} (h : u.Ok = true) :
    compOk u.authority = true ∧ compOk u.module = true ∧
      bytesOk u.path = true ∧ u.toBytes.length < 4294967296 := by
  unfold RsyncUri.Ok at h
  simp only [Bool.and_eq_true, decide_eq_true_eq] at h
  exact ⟨h.1.1.1, h.1.1.2, h.1.2, h.2⟩

theorem rsyncFromBytes_toBytes (u : RsyncUri) (h : u.Ok = true) :
    rsyncFromBytes u.toBytes = some u := by
  obtain ⟨h1, h2, h3, -⟩ := rsyncOk_facts h
  obtain ⟨-, ha47⟩ := compOk_facts h1
  obtain ⟨-, hm47⟩ := compOk_facts h2
  obtain ⟨auth, md, pa⟩ := u
  simp only at h1 h2 h3 ha47 hm47
  unfold rsyncFromBytes RsyncUri.toBytes
  have htake :
      (rsyncScheme ++ (auth ++ (47 :: (md ++ (47 :: pa))))).take 8 =
        rsyncScheme := by
    have h8 : rsyncScheme.length = 8 := rfl
    rw [← h8]
    exact take_len_app _ _
  have hdrop :
      (rsyncScheme ++ (auth ++ (47 :: (md ++ (47 :: pa))))).drop 8 =
        auth ++ (47 :: (md ++ (47 :: pa))) := by
    have h8 : rsyncScheme.length = 8 := rfl
    rw [← h8]
    exact drop_len_app _ _
  rw [if_pos htake, hdrop, splitSlash_app _ _ ha47]
  simp [splitSlash_app _ _ hm47, h1, h2, h3]

/-! ## Exact decoding of encoded records -/

theorem goodAt_readNotify_none : GoodAt (readNotify 0) [] none := by
  unfold readNotify
  rw [if_pos rfl]
  exact goodAt_pure none

theorem goodAt_readNotify_some (u : HttpsUri) :
    GoodAt (readNotify u.val.length) u.val (some u) := by
  obtain ⟨h8, -⟩ := httpsOk_facts u.property
  unfold readNotify
  rw [if_neg (by omega)]
  refine goodAt_bind (u.val) ([])
    (goodAt_readExact rfl) ?_ (List.append_nil u.val).symm
  rw [httpsFromBytes_val u]
  exact goodAt_pure (some u)

theorem goodAt_readHash_none : GoodAt (readHash [0]) [] none :=
  goodAt_pure none

theorem goodAt_readHash_sha (a : DigestAlg) (v : List Nat)
    (ha : a = .sha256) (hlen : v.length = 32) :
    GoodAt (readHash [1]) v (some ⟨a, v⟩) := by
  subst ha
  refine goodAt_bind (v) ([])
    (goodAt_readExact hlen) ?_ (List.append_nil v).symm
  exact goodAt_pure _

theorem goodAt_object (o : StoredObject) (h : o.Valid) :
    GoodAt decodeObjectM (StoredObject.write o) o := by
  obtain ⟨uri, hash, content⟩ := o
  obtain ⟨hu, hh, hc, hclen⟩ := h
  simp only at hu hh hc hclen
  have hu4 : uri.toBytes.length < 256 ^ 4 := by
    have h4 : (256 : Nat) ^ 4 = 4294967296 := by norm_num
    rw [h4]
    exact (rsyncOk_facts hu).2.2.2
  have hc8 : content.length < 256 ^ 8 := by
    have h8 : (256 : Nat) ^ 8 = 18446744073709551616 := by norm_num
    rw [h8]
    exact hclen
  unfold decodeObjectM StoredObject.write
  simp only
  refine goodAt_bind ([0]) _ (goodAt_readExact rfl) ?_ rfl
  rw [if_pos rfl]
  refine goodAt_bind _ _ (goodAt_readExact (beBytes_length 4 _)) ?_ rfl
  rw [beVal_beBytes 4 _ hu4]
  refine goodAt_bind _ _ (goodAt_readExact rfl) ?_ rfl
  rw [rsyncFromBytes_toBytes uri hu]
  cases hash with
  | none =>
    simp only [hashChunk]
    refine goodAt_bind ([0]) _ (goodAt_readExact rfl) ?_ rfl
    refine goodAt_bind ([]) _ goodAt_readHash_none ?_ rfl
    refine goodAt_bind _ _ (goodAt_readExact (beBytes_length 8 _)) ?_ rfl
    rw [beVal_beBytes 8 _ hc8]
    refine goodAt_bind (content) ([])
      (goodAt_readExact rfl) ?_ (List.append_nil content).symm
    exact goodAt_pure _
  | some hsh =>
    obtain ⟨halg, hlen, -⟩ := hh
    simp only [hashChunk, halg, DigestAlg.isSha256, if_pos]
    refine goodAt_bind ([1]) _ (goodAt_readExact rfl) ?_ rfl
    refine goodAt_bind (hsh.value) _
      (goodAt_readHash_sha hsh.algorithm hsh.value halg hlen) ?_ rfl
    refine goodAt_bind _ _ (goodAt_readExact (beBytes_length 8 _)) ?_ rfl
    rw [beVal_beBytes 8 _ hc8]
    refine goodAt_bind (content) ([])
      (goodAt_readExact rfl) ?_ (List.append_nil content).symm
    exact goodAt_pure _

theorem goodAt_manifest (m : StoredManifest) (h : m.Valid) :
    GoodAt decodeManifestM (StoredManifest.write m) m := by
  obtain ⟨nta, rn, car, rmf, mfb, crlb⟩ := m
  obtain ⟨hlo, hhi, hca, hrm, hmb, hmblen, hcb, hcblen⟩ := h
  simp only at hlo hhi hca hrm hmb hmblen hcb hcblen
  have hca4 : car.toBytes.length < 256 ^ 4 := by
    have h4 : (256 : Nat) ^ 4 = 4294967296 := by norm_num
    rw [h4]
    exact (rsyncOk_facts hca).2.2.2
  have hrm4 : rmf.toBytes.length < 256 ^ 4 := by
    have h4 : (256 : Nat) ^ 4 = 4294967296 := by norm_num
    rw [h4]
    exact (rsyncOk_facts hrm).2.2.2
  have hmb8 : mfb.length < 256 ^ 8 := by
    have h8 : (256 : Nat) ^ 8 = 18446744073709551616 := by norm_num
    rw [h8]
    exact hmblen
  have hcb8 : crlb.length < 256 ^ 8 := by
    have h8 : (256 : Nat) ^ 8 = 18446744073709551616 := by norm_num
    rw [h8]
    exact hcblen
  unfold decodeManifestM StoredManifest.write
  simp only
  refine goodAt_bind ([0]) _ (goodAt_readExact rfl) ?_ rfl
  rw [if_pos rfl]
  refine goodAt_bind _ _ (goodAt_readExact (by rw [i64ToBytes, beBytes_length])) ?_ rfl
  rw [i64_roundtrip nta hlo hhi]
  cases rn with
  | none =>
    simp only [notifyChunk]
    refine goodAt_bind _ _ (goodAt_readExact (beBytes_length 4 _)) ?_ rfl
    rw [beVal_beBytes 4 _ (by norm_num)]
    refine goodAt_bind ([]) _ goodAt_readNotify_none ?_ rfl
    refine goodAt_bind _ _ (goodAt_readExact (beBytes_length 4 _)) ?_ rfl
    rw [beVal_beBytes 4 _ hca4]
    refine goodAt_bind _ _ (goodAt_readExact rfl) ?_ rfl
    rw [rsyncFromBytes_toBytes car hca]
    refine goodAt_bind _ _ (goodAt_readExact (beBytes_length 4 _)) ?_ rfl
    rw [beVal_beBytes 4 _ hrm4]
    refine goodAt_bind _ _ (goodAt_readExact rfl) ?_ rfl
    rw [rsyncFromBytes_toBytes rmf hrm]
    refine goodAt_bind _ _ (goodAt_readExact (beBytes_length 8 _)) ?_ rfl
    rw [beVal_beBytes 8 _ hmb8]
    refine goodAt_bind _ _ (goodAt_readExact rfl) ?_ rfl
    refine goodAt_bind _ _ (goodAt_readExact (beBytes_length 8 _)) ?_ rfl
    rw [beVal_beBytes 8 _ hcb8]
    refine goodAt_bind (crlb) ([])
      (goodAt_readExact rfl) ?_ (List.append_nil crlb).symm
    exact goodAt_pure _
  | some u =>
    simp only [notifyChunk]
    refine goodAt_bind _ _ (goodAt_readExact (beBytes_length 4 _)) ?_
      (by rw [List.append_assoc])
    rw [beVal_beBytes 4 _ (by
      have h4 : (256 : Nat) ^ 4 = 4294967296 := by norm_num
      rw [h4]
      exact (httpsOk_facts u.property).2)]
    refine goodAt_bind _ _ (goodAt_readNotify_some u) ?_ rfl
    refine goodAt_bind _ _ (goodAt_readExact (beBytes_length 4 _)) ?_ rfl
    rw [beVal_beBytes 4 _ hca4]
    refine goodAt_bind _ _ (goodAt_readExact rfl) ?_ rfl
    rw [rsyncFromBytes_toBytes car hca]
    refine goodAt_bind _ _ (goodAt_readExact (beBytes_length 4 _)) ?_ rfl
    rw [beVal_beBytes 4 _ hrm4]
    refine goodAt_bind _ _ (goodAt_readExact rfl) ?_ rfl
    rw [rsyncFromBytes_toBytes rmf hrm]
    refine goodAt_bind _ _ (goodAt_readExact (beBytes_length 8 _)) ?_ rfl
    rw [beVal_beBytes 8 _ hmb8]
    refine goodAt_bind _ _ (goodAt_readExact rfl) ?_ rfl
    refine goodAt_bind _ _ (goodAt_readExact (beBytes_length 8 _)) ?_ rfl
    rw [beVal_beBytes 8 _ hcb8]
    refine goodAt_bind (crlb) ([])
      (goodAt_readExact rfl) ?_ (List.append_nil crlb).symm
    exact goodAt_pure _

theorem manifest_roundtrip (m : StoredManifest) (h : m.Valid) :
    StoredManifest.read (StoredManifest.write m) = .ok (m, []) := by
  have := (goodAt_manifest m h).1 []
  rwa [List.append_nil] at this

theorem manifest_short (m : StoredManifest) (h : m.Valid) (p t : List Nat)
    (hp : p ++ t = StoredManifest.write m) (ht : t ≠ []) :
    StoredManifest.read p = .error () :=
  (goodAt_manifest m h).2 p t hp ht

theorem object_write_ne_nil (o : StoredObject) : StoredObject.write o ≠ [] := by
  simp [StoredObject.write]

theorem read_obj_cons (b : List Nat) (hb : b ≠ []) :
    StoredObject.read b =
      match decodeObjectM b with
      | .ok (o, r) => .ok (some (o, r))
      | .error e => .error e := by
  cases b with
  | nil => exact absurd rfl hb
  | cons x xs => rfl

theorem object_consumes (o : StoredObject) (h : o.Valid) (rest : List Nat) :
    StoredObject.read (StoredObject.write o ++ rest) = .ok (some (o, rest)) := by
  have hne : StoredObject.write o ++ rest ≠ [] := by
    simp [StoredObject.write]
  rw [read_obj_cons _ hne, (goodAt_object o h).1 rest]

theorem object_roundtrip (o : StoredObject) (h : o.Valid) :
    StoredObject.read (StoredObject.write o) = .ok (some (o, [])) := by
  have := object_consumes o h []
  rwa [List.append_nil] at this

theorem object_short (o : StoredObject) (h : o.Valid) (p t : List Nat)
    (hp : p ++ t = StoredObject.write o) (ht : t ≠ []) (hpn : p ≠ []) :
    StoredObject.read p = .error () := by
  rw [read_obj_cons p hpn, (goodAt_object o h).2 p t hp ht]

theorem read_obj_none_iff (b : List Nat) :
    StoredObject.read b = .ok none ↔ b = [] := by
  cases b with
  | nil => simp [StoredObject.read]
  | cons x xs =>
    simp only [StoredObject.read]
    constructor
    · intro hres
      rcases hd : decodeObjectM (x :: xs) with e | ⟨o, r⟩ <;> rw [hd] at hres <;>
        simp at hres
    · intro hres
      exact absurd hres (by simp)

theorem readObjects_concat (objs : List StoredObject)
    (hv : ∀ o ∈ objs, o.Valid) :
    ∀ fuel, objs.length < fuel →
      readObjects fuel
        (objs.foldr (fun o acc => StoredObject.write o ++ acc) []) =
        .ok objs := by
  induction objs with
  | nil =>
    intro fuel hf
    cases fuel with
    | zero => omega
    | succ f => rfl
  | cons o os ih =>
    intro fuel hf
    cases fuel with
    | zero => omega
    | succ f =>
      have ho : o.Valid := hv o (by simp)
      rw [readObjects, List.foldr_cons, object_consumes o ho]
      simp only []
      rw [ih (fun x hx => hv x (by simp [hx])) f (by
        simp only [List.length_cons] at hf
        omega)]

/-! ## Filesystem and update-protocol lemmas -/

theorem Fs.set_self (fs : Fs) (p c : List Nat) : Fs.set fs p c p = some c := by
  simp [Fs.set]

theorem Fs.set_other (fs : Fs) (p c q : List Nat) (h : q ≠ p) :
    Fs.set fs p c q = fs q := by
  simp [Fs.set, h]

theorem Fs.get_set_self (fs : Fs) (p c : List Nat) :
    (Fs.set fs p c).get p = c := by
  simp [Fs.get, Fs.set_self]

theorem Fs.erase_self (fs : Fs) (p : List Nat) : Fs.erase fs p p = none := by
  simp [Fs.erase]

theorem Fs.erase_other (fs : Fs) (p q : List Nat) (h : q ≠ p) :
    Fs.erase fs p q = fs q := by
  simp [Fs.erase, h]

theorem tmp_file_spec (base : List Nat) (names : List (List Nat)) (fs : Fs)
    (t : List Nat) (h : tmp_file base names fs = some t) :
    fs t = none ∧ ∃ n ∈ names, t = tmpPathOf base n := by
  induction names with
  | nil => exact absurd h (by simp [tmp_file])
  | cons n rest ih =>
    rw [tmp_file] at h
    by_cases hn : fs (tmpPathOf base n) = none
    · rw [if_pos hn] at h
      cases h
      exact ⟨hn, n, by simp, rfl⟩
    · rw [if_neg hn] at h
      obtain ⟨h1, n2, hn2, h3⟩ := ih h
      exact ⟨h1, n2, by simp [hn2], h3⟩

theorem writeLoop_fst (p : List Nat) (steps : List SrcStep) :
    ∀ fs, (writeLoop p steps fs).1 = srcResult steps := by
  induction steps with
  | nil => intro fs; rfl
  | cons st rest ih =>
    intro fs
    cases st with
    | obj o => exact ih _
    | done => rfl
    | abort => rfl
    | fatal => rfl

theorem writeLoop_apart (p : List Nat) (steps : List SrcStep) :
    ∀ fs q, q ≠ p → (writeLoop p steps fs).2 q = fs q := by
  induction steps with
  | nil => intro fs q _; rfl
  | cons st rest ih =>
    intro fs q hq
    cases st with
    | obj o =>
      rw [writeLoop, ih _ q hq, Fs.append, Fs.set_other _ _ _ _ hq]
    | done => rfl
    | abort => rfl
    | fatal => rfl

theorem writeLoop_objs (p : List Nat) (objs : List StoredObject) :
    ∀ fs x, fs p = some x →
      (writeLoop p (objs.map SrcStep.obj ++ [SrcStep.done]) fs).2 p =
        some (x ++ objs.foldr (fun o acc => StoredObject.write o ++ acc) []) := by
  induction objs with
  | nil =>
    intro fs x hx
    simp only [List.map_nil, List.nil_append, writeLoop]
    rw [hx]
    simp
  | cons o os ih =>
    intro fs x hx
    have hset : (fs.append p (StoredObject.write o)) p =
        some (x ++ StoredObject.write o) := by
      rw [Fs.append, Fs.get, hx, Fs.set_self]
      rfl
    simp only [List.map_cons, List.cons_append, writeLoop, List.append_eq]
    rw [ih _ _ hset, List.foldr_cons, List.append_assoc]

theorem srcResult_objs (objs : List StoredObject) :
    srcResult (objs.map SrcStep.obj ++ [SrcStep.done]) = none := by
  induction objs with
  | nil => rfl
  | cons o os ih => simpa [srcResult] using ih

theorem objs_length_le_flat (objs : List StoredObject) :
    objs.length ≤
      (objs.foldr (fun o acc => StoredObject.write o ++ acc) []).length := by
  induction objs with
  | nil => simp
  | cons o os ih =>
    simp only [List.foldr_cons, List.length_cons, List.length_append]
    have : 1 ≤ (StoredObject.write o).length := by
      simp [StoredObject.write]
    omega

/-- C1: when the caller-supplied object source signals an application abort
during `StoredPoint::update`, the previously committed point file at the
target path is byte-for-byte unchanged (as is every other file outside the
staging path), the staging file is deleted from the scratch subtree, the
point state is untouched, and the returned outcome is the abort error,
which is distinct from the fatal storage-fault outcome. -/
theorem C1_update_abort (base : List Nat) (names : List (List Nat)) (fs : Fs)
    (sp : PointState) (m : StoredManifest) (steps : List SrcStep)
    (tpath : List Nat)
    (htmp : tmp_file base (names.take 100) fs = some tpath)
    (habort : srcResult steps = some .abort) :
    (StoredPoint.update base names fs sp m steps).1 = .error .abort ∧
    (StoredPoint.update base names fs sp m steps).2.1 sp.path = fs sp.path ∧
    (StoredPoint.update base names fs sp m steps).2.1 tpath = none ∧
    (∀ q, q ≠ tpath →
      (StoredPoint.update base names fs sp m steps).2.1 q = fs q) ∧
    (StoredPoint.update base names fs sp m steps).2.2 = sp ∧
    (∃ n ∈ names.take 100, tpath = tmpPathOf base n) ∧
    UpdateError.abort ≠ UpdateError.fatal := by
  obtain ⟨hfresh, hex⟩ := tmp_file_spec _ _ _ _ htmp
  have hupd : StoredPoint.update base names fs sp m steps =
      (.error .abort,
        Fs.erase (writeLoop tpath steps
          (Fs.append (Fs.set fs tpath []) tpath (StoredManifest.write m))).2
          tpath,
        sp) := by
    unfold StoredPoint.update
    rw [htmp]
    simp only [writeLoop_fst, habort]
  have hoff : ∀ q, q ≠ tpath →
      (StoredPoint.update base names fs sp m steps).2.1 q = fs q := by
    intro q hq
    rw [hupd]
    show Fs.erase _ tpath q = fs q
    rw [Fs.erase_other _ _ _ hq, writeLoop_apart _ _ _ _ hq, Fs.append,
      Fs.set_other _ _ _ _ hq, Fs.set_other _ _ _ _ hq]
  refine ⟨by rw [hupd], ?_, by rw [hupd]; exact Fs.erase_self _ _, hoff,
    by rw [hupd], hex, by simp⟩
  by_cases hsp : sp.path = tpath
  · rw [hupd, hsp, hfresh]
    exact Fs.erase_self _ _
  · exact hoff sp.path hsp

/-- C2: when `StoredPoint::update` succeeds — the object source yields a
finite sequence of valid objects and then end-of-data — iterating the point
afterwards yields exactly the objects supplied, in the order supplied, the
point's stored header is the new manifest passed to the call, and the point
is positioned at the remembered offset just past the new header.  The
staging path lies in the scratch subtree, so it differs from the point's
target path. -/
theorem C2_update_success (base : List Nat) (names : List (List Nat))
    (fs : Fs) (sp : PointState) (m : StoredManifest)
    (objs : List StoredObject) (tpath : List Nat)
    (htmp : tmp_file base (names.take 100) fs = some tpath)
    (hne : sp.path ≠ tpath) (_hm : m.Valid) (hv : ∀ o ∈ objs, o.Valid) :
    (StoredPoint.update base names fs sp m
      (objs.map SrcStep.obj ++ [SrcStep.done])).1 = .ok () ∧
    (StoredPoint.update base names fs sp m
      (objs.map SrcStep.obj ++ [SrcStep.done])).2.2.manifest = some m ∧
    pointObjects (StoredPoint.update base names fs sp m
      (objs.map SrcStep.obj ++ [SrcStep.done])).2.2 = .ok objs ∧
    (StoredPoint.update base names fs sp m
      (objs.map SrcStep.obj ++ [SrcStep.done])).2.2.object_start =
      (StoredManifest.write m).length := by
  have hfs2p : Fs.append (Fs.set fs tpath []) tpath (StoredManifest.write m)
      tpath = some ([] ++ StoredManifest.write m) := by
    rw [Fs.append, Fs.get_set_self, Fs.set_self]
  have hget : Fs.get
      (Fs.append (Fs.set fs tpath []) tpath (StoredManifest.write m)) tpath =
      [] ++ StoredManifest.write m := by
    rw [Fs.get, hfs2p]
    rfl
  have hwl2p : (writeLoop tpath (objs.map SrcStep.obj ++ [SrcStep.done])
      (Fs.append (Fs.set fs tpath []) tpath (StoredManifest.write m))).2
      tpath = some (([] ++ StoredManifest.write m) ++
        objs.foldr (fun o acc => StoredObject.write o ++ acc) []) :=
    writeLoop_objs tpath objs _ _ hfs2p
  have hfs4p : (if sp.file.isSome then
        Fs.erase (writeLoop tpath (objs.map SrcStep.obj ++ [SrcStep.done])
          (Fs.append (Fs.set fs tpath []) tpath (StoredManifest.write m))).2
          sp.path
      else (writeLoop tpath (objs.map SrcStep.obj ++ [SrcStep.done])
          (Fs.append (Fs.set fs tpath []) tpath (StoredManifest.write m))).2)
      tpath = some (([] ++ StoredManifest.write m) ++
        objs.foldr (fun o acc => StoredObject.write o ++ acc) []) := by
    rcases sp.file with _ | f
    · simpa using hwl2p
    · simp only [Option.isSome_some, if_true]
      rw [Fs.erase_other _ _ _ (Ne.symm hne)]
      exact hwl2p
  have hupd : StoredPoint.update base names fs sp m
      (objs.map SrcStep.obj ++ [SrcStep.done]) =
      (.ok (),
        Fs.rename (if sp.file.isSome then
          Fs.erase (writeLoop tpath (objs.map SrcStep.obj ++ [SrcStep.done])
            (Fs.append (Fs.set fs tpath []) tpath (StoredManifest.write m))).2
            sp.path
        else (writeLoop tpath (objs.map SrcStep.obj ++ [SrcStep.done])
            (Fs.append (Fs.set fs tpath []) tpath
              (StoredManifest.write m))).2) tpath sp.path,
        { path := sp.path,
          file := some (Fs.get (Fs.rename (if sp.file.isSome then
            Fs.erase (writeLoop tpath (objs.map SrcStep.obj ++ [SrcStep.done])
              (Fs.append (Fs.set fs tpath []) tpath
                (StoredManifest.write m))).2 sp.path
          else (writeLoop tpath (objs.map SrcStep.obj ++ [SrcStep.done])
              (Fs.append (Fs.set fs tpath []) tpath
                (StoredManifest.write m))).2) tpath sp.path) sp.path,
            (Fs.get (Fs.append (Fs.set fs tpath []) tpath
              (StoredManifest.write m)) tpath).length),
          manifest := some m,
          object_start := (Fs.get (Fs.append (Fs.set fs tpath []) tpath
            (StoredManifest.write m)) tpath).length }) := by
    unfold StoredPoint.update
    rw [htmp]
    simp only [writeLoop_fst, srcResult_objs]
  have hfs5p : Fs.rename (if sp.file.isSome then
        Fs.erase (writeLoop tpath (objs.map SrcStep.obj ++ [SrcStep.done])
          (Fs.append (Fs.set fs tpath []) tpath (StoredManifest.write m))).2
          sp.path
      else (writeLoop tpath (objs.map SrcStep.obj ++ [SrcStep.done])
          (Fs.append (Fs.set fs tpath []) tpath (StoredManifest.write m))).2)
      tpath sp.path sp.path =
      some (([] ++ StoredManifest.write m) ++
        objs.foldr (fun o acc => StoredObject.write o ++ acc) []) := by
    rw [Fs.rename]
    simp only [if_pos rfl]
    exact hfs4p
  have hcontent : Fs.get (Fs.rename (if sp.file.isSome then
        Fs.erase (writeLoop tpath (objs.map SrcStep.obj ++ [SrcStep.done])
          (Fs.append (Fs.set fs tpath []) tpath (StoredManifest.write m))).2
          sp.path
      else (writeLoop tpath (objs.map SrcStep.obj ++ [SrcStep.done])
          (Fs.append (Fs.set fs tpath []) tpath (StoredManifest.write m))).2)
      tpath sp.path) sp.path =
      StoredManifest.write m ++
        objs.foldr (fun o acc => StoredObject.write o ++ acc) [] := by
    rw [Fs.get, hfs5p]
    simp
  refine ⟨by rw [hupd], by rw [hupd], ?_, by rw [hupd, hget]; simp⟩
  rw [hupd]
  simp only [pointObjects]
  rw [hcontent, hget]
  simp only [List.nil_append]
  rw [drop_len_app]
  refine readObjects_concat objs hv _ ?_
  have := objs_length_le_flat objs
  omega

theorem readExact_app (l : List Nat) (n : Nat) (r : List Nat)
    (h : l.length = n) : readExact n (l ++ r) = .ok (l, r) :=
  (goodAt_readExact h).1 r

theorem dbind_ok {α β : Type} {m : DecM α} {f : α → DecM β}
    {s s' : List Nat} {a : α} (h : m s = .ok (a, s')) :
    dbind m f s = f a s' := by
  unfold dbind
  rw [h]

theorem dbind_err {α β : Type} {m : DecM α} {f : α → DecM β} {s : List Nat}
    (h : m s = .error ()) : dbind m f s = .error () := by
  unfold dbind
  rw [h]

/-- C3: decoding the bytes produced by encoding any valid stored manifest
(with or without a notify identifier) returns the original value, and
likewise for any valid stored object (digest present or absent). -/
theorem C3_codec_roundtrip :
    (∀ m : StoredManifest, m.Valid →
      StoredManifest.read (StoredManifest.write m) = .ok (m, [])) ∧
    (∀ o : StoredObject, o.Valid →
      StoredObject.read (StoredObject.write o) = .ok (some (o, []))) :=
  ⟨manifest_roundtrip, object_roundtrip⟩

/-- Witness for C3 at concrete values: a manifest with and one without a
notify URI, an object with and one without a digest. -/
theorem C3_codec_roundtrip_witness :
    mfEx.Valid ∧
    StoredManifest.read (StoredManifest.write mfEx) = .ok (mfEx, []) ∧
    mfExNoNotify.Valid ∧
    StoredManifest.read (StoredManifest.write mfExNoNotify) =
      .ok (mfExNoNotify, []) ∧
    objEx.Valid ∧
    StoredObject.read (StoredObject.write objEx) = .ok (some (objEx, [])) ∧
    objExHash.Valid ∧
    StoredObject.read (StoredObject.write objExHash) =
      .ok (some (objExHash, [])) :=
  ⟨by decide, C3_codec_roundtrip.1 mfEx (by decide), by decide,
   C3_codec_roundtrip.1 mfExNoNotify (by decide), by decide,
   C3_codec_roundtrip.2 objEx (by decide), by decide,
   C3_codec_roundtrip.2 objExHash (by decide)⟩

/-- C4 fails exactly as stated: the empty byte stream is a proper prefix of
the encoded example object record (strictly shorter, since the record is
nonempty), yet `StoredObject::read` on it returns the end-of-sequence
outcome `Ok(None)` instead of failing with a decode fault. -/
theorem C4_counterexample :
    ([] : List Nat) ++ StoredObject.write objEx = StoredObject.write objEx ∧
    StoredObject.write objEx ≠ [] ∧
    StoredObject.read [] = .ok none :=
  ⟨rfl, object_write_ne_nil objEx, rfl⟩

/-- C4 (amended): decoding any proper prefix of an encoded manifest-header
record fails with a decode fault, and decoding any nonempty proper prefix
of an encoded object record fails with a decode fault; the empty prefix of
an object record instead yields the end-of-sequence outcome, never a
decoded partial value. -/
theorem C4_prefix_amended :
    (∀ m : StoredManifest, m.Valid → ∀ p t,
      p ++ t = StoredManifest.write m → t ≠ [] →
      StoredManifest.read p = .error ()) ∧
    (∀ o : StoredObject, o.Valid → ∀ p t,
      p ++ t = StoredObject.write o → t ≠ [] → p ≠ [] →
      StoredObject.read p = .error ()) ∧
    StoredObject.read [] = .ok none :=
  ⟨manifest_short, object_short, rfl⟩

/-- Witness for C4 (amended) at concrete prefixes of concrete records. -/
theorem C4_prefix_amended_witness :
    mfEx.Valid ∧
    ([] : List Nat) ++ StoredManifest.write mfEx = StoredManifest.write mfEx ∧
    StoredManifest.write mfEx ≠ [] ∧
    StoredManifest.read [] = .error () ∧
    objEx.Valid ∧
    [0] ++ (StoredObject.write objEx).drop 1 = StoredObject.write objEx ∧
    (StoredObject.write objEx).drop 1 ≠ [] ∧ ([0] : List Nat) ≠ [] ∧
    StoredObject.read [0] = .error () :=
  ⟨by decide, rfl, by decide,
   C4_prefix_amended.1 mfEx (by decide) [] _ rfl (by decide),
   by decide, by decide, by decide, by decide,
   C4_prefix_amended.2.1 objEx (by decide) [0]
     ((StoredObject.write objEx).drop 1) (by decide) (by decide)
     (by decide)⟩

/-- C5: `StoredObject::read` yields end-of-sequence exactly when the input
is exhausted before the first version byte — in particular on the empty
stream — while end-of-input anywhere later inside a record (any nonempty
proper prefix of an encoded record) is a hard decode error. -/
theorem C5_end_of_sequence :
    (∀ b : List Nat, StoredObject.read b = .ok none ↔ b = []) ∧
    (∀ o : StoredObject, o.Valid → ∀ p t,
      p ++ t = StoredObject.write o → t ≠ [] → p ≠ [] →
      StoredObject.read p = .error ()) :=
  ⟨read_obj_none_iff, object_short⟩

/-- Witness for C5 at concrete inputs: the empty stream and a truncated
concrete record. -/
theorem C5_end_of_sequence_witness :
    (StoredObject.read [] = .ok none ↔ ([] : List Nat) = []) ∧
    objExHash.Valid ∧
    [0] ++ (StoredObject.write objExHash).drop 1 =
      StoredObject.write objExHash ∧
    (StoredObject.write objExHash).drop 1 ≠ [] ∧ ([0] : List Nat) ≠ [] ∧
    StoredObject.read [0] = .error () :=
  ⟨C5_end_of_sequence.1 [], by decide, by decide, by decide, by decide,
   C5_end_of_sequence.2 objExHash (by decide) [0]
     ((StoredObject.write objExHash).drop 1) (by decide) (by decide)
     (by decide)⟩

/-- C10: an object-record byte stream whose one-byte digest-algorithm
discriminant is 2 or greater fails with a hard decode error — the digest is
neither treated as absent nor skipped — even though the encoder writes a
digest with any unrecognised algorithm exactly as if the digest were
absent (discriminant 0). -/
theorem C10_hash_discriminant :
    (∀ u : RsyncUri, u.Ok = true → ∀ t : Nat, 2 ≤ t → ∀ rest : List Nat,
      StoredObject.read ([0] ++ (beBytes 4 u.toBytes.length ++
        (u.toBytes ++ t :: rest))) = .error ()) ∧
    (∀ o : StoredObject, ∀ h : ManifestHash, o.hash = some h →
      h.algorithm.isSha256 = false →
      StoredObject.write o = StoredObject.write ⟨o.uri, none, o.content⟩) := by
  constructor
  · intro u hu t ht rest
    have hu4 : u.toBytes.length < 256 ^ 4 := by
      have h4 : (256 : Nat) ^ 4 = 4294967296 := by norm_num
      rw [h4]
      exact (rsyncOk_facts hu).2.2.2
    rw [read_obj_cons _ (by simp)]
    have hdec : decodeObjectM ([0] ++ (beBytes 4 u.toBytes.length ++
        (u.toBytes ++ t :: rest))) = .error () := by
      unfold decodeObjectM
      rw [dbind_ok (readExact_app [0] 1 _ rfl)]
      rw [if_pos rfl]
      rw [dbind_ok (readExact_app (beBytes 4 u.toBytes.length) 4 _ (beBytes_length 4 _))]
      rw [beVal_beBytes 4 _ hu4]
      rw [dbind_ok (readExact_app u.toBytes u.toBytes.length _ rfl)]
      rw [rsyncFromBytes_toBytes u hu]
      simp only []
      have hsplit : t :: rest = [t] ++ rest := rfl
      rw [hsplit, dbind_ok (readExact_app [t] 1 rest rfl)]
      refine dbind_err ?_
      unfold readHash
      simp only []
      rw [if_neg (by omega : ¬t = 0), if_neg (by omega : ¬t = 1)]
      rfl
    rw [hdec]
  · intro o h hh halg
    simp [StoredObject.write, hashChunk, hh, halg]

/-- Witness for C10 at a concrete stream with discriminant byte 2 and a
concrete object carrying an unrecognised-algorithm digest. -/
theorem C10_hash_discriminant_witness :
    uriEx.Ok = true ∧ (2 : Nat) ≤ 2 ∧
    StoredObject.read ([0] ++ (beBytes 4 uriEx.toBytes.length ++
      (uriEx.toBytes ++ 2 :: []))) = .error () ∧
    (StoredObject.mk uriEx (some ⟨.unrecognized, [1, 2]⟩) [9]).hash =
      some ⟨.unrecognized, [1, 2]⟩ ∧
    DigestAlg.isSha256 (DigestAlg.unrecognized) = false ∧
    StoredObject.write ⟨uriEx, some ⟨.unrecognized, [1, 2]⟩, [9]⟩ =
      StoredObject.write ⟨uriEx, none, [9]⟩ :=
  ⟨by decide, by decide,
   C10_hash_discriminant.1 uriEx (by decide) 2 (by decide) [],
   rfl, rfl,
   C10_hash_discriminant.2 ⟨uriEx, some ⟨.unrecognized, [1, 2]⟩, [9]⟩
     ⟨.unrecognized, [1, 2]⟩ rfl rfl⟩

/-- C6 fails as stated for the RRDP sweep: a publication-point file whose
header decodes and is unexpired, but stores no notify identifier, is
nevertheless deleted by `Store::cleanup_rrdp`, because
`StoredManifest::retain_rrdp` answers with the stored notify URI and so
returns `None` both for expired points and for points without one. -/
theorem C6_counterexample :
    StoredManifest.read (StoredManifest.write mfExNoNotify) =
      .ok (mfExNoNotify, []) ∧
    (0 : Int) < mfExNoNotify.not_after ∧
    keep_rrdp 0 (StoredManifest.write mfExNoNotify) = false := by
  refine ⟨manifest_roundtrip mfExNoNotify (by decide), by decide, ?_⟩
  unfold keep_rrdp
  rw [manifest_roundtrip mfExNoNotify (by decide)]
  rfl

/-- C6 (amended): in the cleanup sweep, a publication-point file of the
shared rsync tree is retained exactly when its header record decodes and
its expiry is still in the future, while a file of the RRDP tree is
retained exactly when its header decodes, its expiry is still in the
future, and a notify identifier is stored; a file whose header does not
decode is deleted regardless of any embedded timestamp. -/
theorem C6_retention_amended (now : Int) (content : List Nat) :
    (keep_rsync now content = true ↔
      ∃ m rest, StoredManifest.read content = .ok (m, rest) ∧
        now < m.not_after) ∧
    (keep_rrdp now content = true ↔
      ∃ m rest, StoredManifest.read content = .ok (m, rest) ∧
        now < m.not_after ∧ m.rpki_notify.isSome = true) := by
  rcases hd : StoredManifest.read content with e | ⟨m, rest⟩
  · constructor
    · unfold keep_rsync
      rw [hd]
      simp
    · unfold keep_rrdp
      rw [hd]
      simp
  · constructor
    · unfold keep_rsync
      rw [hd]
      show (m.retain_rsync now).isSome = true ↔ _
      unfold StoredManifest.retain_rsync
      by_cases hle : m.not_after ≤ now
      · rw [if_pos hle]
        simp only [Option.isSome_none, Bool.false_eq_true, false_iff]
        rintro ⟨m', r', he, hlt⟩
        injection he with he2
        injection he2 with hm2 hr2
        subst hm2
        omega
      · rw [if_neg hle]
        simp only [Option.isSome_some, true_iff]
        exact ⟨m, rest, rfl, by omega⟩
    · unfold keep_rrdp
      rw [hd]
      show (m.retain_rrdp now).isSome = true ↔ _
      unfold StoredManifest.retain_rrdp
      by_cases hle : m.not_after ≤ now
      · rw [if_pos hle]
        simp only [Option.isSome_none, Bool.false_eq_true, false_iff]
        rintro ⟨m', r', he, hlt, -⟩
        injection he with he2
        injection he2 with hm2 hr2
        subst hm2
        omega
      · rw [if_neg hle]
        constructor
        · intro hs
          exact ⟨m, rest, rfl, by omega, hs⟩
        · rintro ⟨m', r', he, -, hs⟩
          injection he with he2
          injection he2 with hm2 hr2
          subst hm2
          exact hs

/-- C8: in `Store::cleanup` the retention collaborator's `commit` is
invoked exactly when a collaborator was supplied and the trust-anchor
sweep, the RRDP sweep, the rsync sweep and the scratch wipe all succeeded;
whenever `commit` runs it is the last operation, after all four sweeps.  If
any sweep fails, `commit` is never called. -/
theorem C8_cleanup_commit (hasCollector ta rr rs tm cm : Bool) :
    (CleanupEvent.commitCall ∈ (Store.cleanup hasCollector ta rr rs tm cm).2 ↔
      hasCollector = true ∧ ta = true ∧ rr = true ∧ rs = true ∧ tm = true) ∧
    (CleanupEvent.commitCall ∈ (Store.cleanup hasCollector ta rr rs tm cm).2 →
      (Store.cleanup hasCollector ta rr rs tm cm).2 =
        [.taSweep, .rrdpSweep, .rsyncSweep, .tmpSweep, .commitCall]) := by
  cases hasCollector <;> cases ta <;> cases rr <;> cases rs <;> cases tm <;>
    cases cm <;> exact (by decide)

/-- Witness for C8: with a collaborator supplied and every sweep
successful, `commit` runs and is the last event. -/
theorem C8_cleanup_commit_witness :
    CleanupEvent.commitCall ∈ (Store.cleanup true true true true true true).2 ∧
    (Store.cleanup true true true true true true).2 =
      [.taSweep, .rrdpSweep, .rsyncSweep, .tmpSweep, .commitCall] :=
  ⟨by decide, (C8_cleanup_commit true true true true true true).2 (by decide)⟩

theorem cleanup_children_fst (keep : List Nat → Bool) :
    ∀ es : FsEntries, (cleanup_children keep es).1 = entries_retained keep es
  | .nil => rfl
  | .cons (.file c) rest => by
    rw [cleanup_children, entries_retained, entry_retained]
    rcases hk : keep c
    · simp only [hk, if_false, Bool.false_or]
      exact cleanup_children_fst keep rest
    · simp [hk]
  | .cons (.dir es) rest => by
    rw [cleanup_children, entries_retained, entry_retained]
    rw [← cleanup_children_fst keep es, ← cleanup_children_fst keep rest]
    rcases hd : (cleanup_children keep es).1
    · simp [hd]
    · simp [hd]
  | .cons .other rest => by
    rw [cleanup_children, entries_retained, entry_retained]
    simp

/-- C7: in the cleanup walk, a directory's subtree is reported retained
exactly when it has at least one retained descendant (a kept file, a
subdirectory with a retained descendant, or an entry that is neither file
nor directory); a subdirectory with no retained descendant is deleted from
its parent's entries, one with a retained descendant is kept (with its own
entries cleaned), an entry that is neither a regular file nor a directory
is always retained, and a file is kept exactly when the retention
predicate accepts it. -/
theorem C7_cleanup_tree (keep : List Nat → Bool) (es rest : FsEntries) :
    ((cleanup_children keep es).1 = entries_retained keep es) ∧
    ((cleanup_children keep (.cons (.dir es) rest)).2 =
      if entries_retained keep es then
        FsEntries.cons (.dir (cleanup_children keep es).2)
          (cleanup_children keep rest).2
      else (cleanup_children keep rest).2) ∧
    ((cleanup_children keep (.cons .other rest)).2 =
      .cons .other (cleanup_children keep rest).2) ∧
    (∀ c, (cleanup_children keep (.cons (.file c) rest)).2 =
      if keep c then
        FsEntries.cons (.file c) (cleanup_children keep rest).2
      else (cleanup_children keep rest).2) := by
  refine ⟨cleanup_children_fst keep es, ?_, ?_, ?_⟩
  · rw [cleanup_children, cleanup_children_fst keep es]
    rcases hres : entries_retained keep es
    · simp [hres]
    · simp [hres]
  · rw [cleanup_children]
  · intro c
    rw [cleanup_children]
    rcases hk : keep c
    · simp [hk]
    · simp [hk]

/-! ## Shape of the SHA-256 digest and its hex spelling -/

theorem sha256Round_length (s : List Nat) (k w : Nat) :
    (sha256Round s k w).length = s.length := by
  unfold sha256Round
  split <;> rfl

theorem foldl_round_length (l : List (Nat × Nat)) :
    ∀ st : List Nat,
      (l.foldl (fun st kw => sha256Round st kw.1 kw.2) st).length =
        st.length := by
  induction l with
  | nil => intro st; rfl
  | cons kw rest ih =>
    intro st
    rw [List.foldl_cons, ih, sha256Round_length]

theorem sha256Block_length (H b : List Nat) (h : H.length = 8) :
    (sha256Block H b).length = 8 := by
  unfold sha256Block
  rw [List.length_zipWith, foldl_round_length, h]
  simp

theorem foldl_block_length (blocks : List (List Nat)) :
    ∀ H : List Nat, H.length = 8 →
      (blocks.foldl sha256Block H).length = 8 := by
  induction blocks with
  | nil => intro H h; simpa using h
  | cons b rest ih =>
    intro H h
    rw [List.foldl_cons]
    exact ih _ (sha256Block_length H b h)

theorem foldr_beBytes_length (l : List Nat) :
    (l.foldr (fun wd acc => beBytes 4 wd ++ acc) []).length = 4 * l.length := by
  induction l with
  | nil => rfl
  | cons w rest ih =>
    rw [List.foldr_cons, List.length_append, ih, beBytes_length]
    simp only [List.length_cons]
    omega

theorem sha256_length (msg : List Nat) : (sha256 msg).length = 32 := by
  unfold sha256
  rw [foldr_beBytes_length, foldl_block_length _ _ (by rfl)]

theorem hexDigitByte_range (d : Nat) (h : d < 16) :
    (48 ≤ hexDigitByte d ∧ hexDigitByte d ≤ 57) ∨
      (97 ≤ hexDigitByte d ∧ hexDigitByte d ≤ 102) := by
  unfold hexDigitByte
  by_cases hd : d < 10
  · rw [if_pos hd]
    omega
  · rw [if_neg hd]
    omega

theorem hexBytes_length (l : List Nat) : (hexBytes l).length = 2 * l.length := by
  induction l with
  | nil => rfl
  | cons b rest ih =>
    unfold hexBytes at ih ⊢
    rw [List.foldr_cons]
    simp only [List.length_cons, ih]
    ring

theorem hexBytes_mem (l : List Nat) :
    ∀ c ∈ hexBytes l, (48 ≤ c ∧ c ≤ 57) ∨ (97 ≤ c ∧ c ≤ 102) := by
  induction l with
  | nil => simp [hexBytes]
  | cons b rest ih =>
    intro c hc
    unfold hexBytes at hc
    rw [List.foldr_cons] at hc
    rcases List.mem_cons.mp hc with h1 | hc2
    · subst h1
      exact hexDigitByte_range _ (Nat.lt_of_le_of_lt (Nat.and_le_right) (by norm_num))
    · rcases List.mem_cons.mp hc2 with h2 | hc3
      · subst h2
        exact hexDigitByte_range _ (Nat.lt_of_le_of_lt (Nat.and_le_right) (by norm_num))
      · exact ih c hc3

/-- C9: the storage location of a certification authority's publication
point is derived from its URIs alone.  With a notify URI present the point
goes under the RRDP tree, in a directory named by the lowercase
64-character hexadecimal SHA-256 digest of the notify URI's exact bytes —
and `Run::repository` receives no information about which transport
delivered the data, so the choice cannot depend on it.  Without a notify
URI the point goes under the single shared rsync tree.  In both cases the
point's path below the repository directory is
`rsync/<authority>/<module>/<path>` of its manifest URI, with the
authority in canonical lowercase form. -/
theorem C9_path_derivation (base : List Nat) (ca : CaCert) :
    (∀ u, ca.rpki_notify = some u →
      Run.repository base ca =
        (base ++ 47 :: rrdpWord ++ 47 :: hexBytes (sha256 u.val), true) ∧
      (hexBytes (sha256 u.val)).length = 64 ∧
      (∀ c ∈ hexBytes (sha256 u.val),
        (48 ≤ c ∧ c ≤ 57) ∨ (97 ≤ c ∧ c ≤ 102))) ∧
    (ca.rpki_notify = none →
      Run.repository base ca = (base ++ 47 :: rsyncWord, false)) ∧
    Run.pub_point base ca = (Run.repository base ca).1 ++ 47 :: rsyncWord ++
      47 :: ca.rpki_manifest.canonicalAuthority ++
      47 :: ca.rpki_manifest.module ++ 47 :: ca.rpki_manifest.path := by
  refine ⟨?_, ?_, ?_⟩
  · intro u hu
    refine ⟨?_, ?_, hexBytes_mem _⟩
    · unfold Run.repository
      rw [hu]
      rfl
    · rw [hexBytes_length, sha256_length]
  · intro hn
    unfold Run.repository
    rw [hn]
    rfl
  · rfl

/-- Witness for C1 at a concrete store state: an empty filesystem, one
random name, and a source that aborts immediately. -/
theorem C1_update_abort_witness :
    tmp_file [] ([[110]].take 100) (fun _ => none) =
      some (tmpPathOf [] [110]) ∧
    srcResult [SrcStep.abort] = some .abort ∧
    (StoredPoint.update [] [[110]] (fun _ => none)
      ⟨[112], none, none, 0⟩ mfEx [SrcStep.abort]).1 = .error .abort ∧
    (StoredPoint.update [] [[110]] (fun _ => none)
      ⟨[112], none, none, 0⟩ mfEx [SrcStep.abort]).2.1
      (tmpPathOf [] [110]) = none :=
  ⟨rfl, rfl,
   (C1_update_abort [] [[110]] (fun _ => none) ⟨[112], none, none, 0⟩ mfEx
     [SrcStep.abort] (tmpPathOf [] [110]) rfl rfl).1,
   (C1_update_abort [] [[110]] (fun _ => none) ⟨[112], none, none, 0⟩ mfEx
     [SrcStep.abort] (tmpPathOf [] [110]) rfl rfl).2.2.1⟩

/-- Witness for C2 at a concrete store state: an empty filesystem, one
random name, the example manifest and one example object. -/
theorem C2_update_success_witness :
    tmp_file [] ([[110]].take 100) (fun _ => none) =
      some (tmpPathOf [] [110]) ∧
    ([112] : List Nat) ≠ tmpPathOf [] [110] ∧
    mfEx.Valid ∧ (∀ o ∈ [objEx], o.Valid) ∧
    pointObjects (StoredPoint.update [] [[110]] (fun _ => none)
      ⟨[112], none, none, 0⟩ mfEx
      ([objEx].map SrcStep.obj ++ [SrcStep.done])).2.2 = .ok [objEx] ∧
    (StoredPoint.update [] [[110]] (fun _ => none)
      ⟨[112], none, none, 0⟩ mfEx
      ([objEx].map SrcStep.obj ++ [SrcStep.done])).2.2.manifest = some mfEx :=
  ⟨rfl, by decide, by decide, by decide,
   (C2_update_success [] [[110]] (fun _ => none) ⟨[112], none, none, 0⟩ mfEx
     [objEx] (tmpPathOf [] [110]) rfl (by decide) (by decide) (by decide)).2.2.1,
   (C2_update_success [] [[110]] (fun _ => none) ⟨[112], none, none, 0⟩ mfEx
     [objEx] (tmpPathOf [] [110]) rfl (by decide) (by decide) (by decide)).2.1⟩

/-- Witness for C9 at concrete certification authorities, one with and one
without a notify URI. -/
theorem C9_path_derivation_witness :
    caEx.rpki_notify = some httpsEx ∧
    Run.repository [] caEx =
      ([] ++ 47 :: rrdpWord ++ 47 :: hexBytes (sha256 httpsEx.val), true) ∧
    (hexBytes (sha256 httpsEx.val)).length = 64 ∧
    caExNoNotify.rpki_notify = none ∧
    Run.repository [] caExNoNotify = ([] ++ 47 :: rsyncWord, false) :=
  ⟨rfl, ((C9_path_derivation [] caEx).1 httpsEx rfl).1,
   ((C9_path_derivation [] caEx).1 httpsEx rfl).2.1,
   rfl, (C9_path_derivation [] caExNoNotify).2.1 rfl⟩
